import Mathlib

/-! Verification of the Top Trumps hypercars round engine.  The data model and
the operations below are a shallow embedding of the source application: the
card loader, the attribute comparison, the dealing routine and the two round
operations of the game state machine. -/

namespace TopTrumps

/-- A loaded card: identifier, display name, attribute table mapping attribute
keys to numeric values (none models both a JSON null and a missing value after
normalization), and an optional image file name. -/
structure Card where
  id : Nat
  name : String
  attributes : List (String × Option ℚ)
  image : Option String
deriving DecidableEq

/-- The fixed attribute rule table of the source: each key is tagged higher
(larger value wins) or lower (smaller value wins). -/
def RULES : List (String × String) :=
  [("top_speed", "higher"), ("acceleration", "lower"), ("horsepower", "higher"),
   ("weight", "lower"), ("engine_size", "higher"), ("price", "higher"),
   ("rpm", "higher"), ("release_year", "lower")]

/-- A raw catalog record before validation: a field may be absent (outer none);
an attribute value or an image value may itself be the JSON null (inner none). -/
structure RawCard where
  id : Option Nat
  name : Option String
  attributes : Option (List (String × Option ℚ))
  image : Option (Option String)
deriving DecidableEq

/-- The assertion of the loader: the record has id, name and attributes. -/
def rawValid (r : RawCard) : Bool :=
  r.id.isSome && r.name.isSome && r.attributes.isSome

/-- Normalization done by the loader for one record: every rule key missing
from the attribute table is inserted with value null, and a missing image
field becomes null. -/
def normalizeCard (r : RawCard) : Card :=
  let attrs := r.attributes.getD []
  { id := r.id.getD 0
    name := r.name.getD ""
    attributes :=
      attrs ++ ((RULES.map Prod.fst).filter
        (fun k => (attrs.lookup k).isNone)).map (fun k => (k, (none : Option ℚ)))
    image := r.image.getD none }

inductive LoadError where
  | schemaError
deriving DecidableEq

/-- Embedding of load_cards: each record is validated in order (the failed
assertion of the source is modelled as the schema error) and the records that
pass are normalized. -/
def load_cards : List RawCard → Except LoadError (List Card)
  | [] => Except.ok []
  | r :: rs =>
    if rawValid r then
      match load_cards rs with
      | Except.ok cs => Except.ok (normalizeCard r :: cs)
      | Except.error e => Except.error e
    else Except.error LoadError.schemaError

/-- Reading an attribute from a card, as the source does with a dict get with
default None: an absent key and a null value both give none. -/
def getAttr (c : Card) (a : String) : Option ℚ :=
  (c.attributes.lookup a).getD none

/-- A comparison score: a finite value, or one of the two infinities the
source uses as sentinels for null values. -/
inductive Score where
  | neginf
  | fin (v : ℚ)
  | posinf
deriving DecidableEq

/-- Ordering of scores: neginf is below every finite value, posinf above. -/
def Score.le : Score → Score → Bool
  | Score.neginf, _ => true
  | _, Score.posinf => true
  | Score.fin a, Score.fin b => decide (a ≤ b)
  | Score.posinf, Score.neginf => false
  | Score.posinf, Score.fin _ => false
  | Score.fin _, Score.neginf => false

def maxScore (a b : Score) : Score := if Score.le a b then b else a

def minScore (a b : Score) : Score := if Score.le b a then b else a

/-- The null mapping of the source: a null value scores as the worst value for
the active rule, negative infinity for higher, positive infinity for lower. -/
def scoreOf (rule : String) (v : Option ℚ) : Score :=
  match v with
  | none => if rule = "higher" then Score.neginf else Score.posinf
  | some x => Score.fin x

/-- Embedding of compare_cards.  The outer none models the key error the
source raises for an attribute outside the rule table (never reached from the
app, whose attribute choices all come from the table); some none is a tie, and
some (some w) is a win of player w. -/
def compare_cards (card_by_player : List (Nat × Card)) (attr : String) :
    Option (Option Nat) :=
  match RULES.lookup attr with
  | none => none
  | some rule =>
    let values := card_by_player.map (fun x => (x.1, getAttr x.2 attr))
    if values.all (fun x => x.2.isNone) then some none
    else
      let scored := values.map (fun x => (x.1, scoreOf rule x.2))
      let best :=
        match scored with
        | [] => Score.neginf
        | y :: ys =>
          (ys.map Prod.snd).foldl
            (if rule = "higher" then maxScore else minScore) y.2
      match (scored.filter (fun x => decide (x.2 = best))).map Prod.fst with
      | [w] => some (some w)
      | _ => some none

/-- Modelled from the words of the specification of compare_cards, for
comparison with the source embedding: compute the best score under the rule of
the attribute (max for higher, min for lower, null mapped to the worst score)
and return the unique index attaining it, or null when several indexes attain
it.  This definition omits the all-null early exit of the source. -/
def bestIndexSpec (card_by_player : List (Nat × Card)) (attr : String) :
    Option (Option Nat) :=
  match RULES.lookup attr with
  | none => none
  | some rule =>
    let values := card_by_player.map (fun x => (x.1, getAttr x.2 attr))
    let scored := values.map (fun x => (x.1, scoreOf rule x.2))
    let best :=
      match scored with
      | [] => Score.neginf
      | y :: ys =>
        (ys.map Prod.snd).foldl
          (if rule = "higher" then maxScore else minScore) y.2
    match (scored.filter (fun x => decide (x.2 = best))).map Prod.fst with
    | [w] => some (some w)
    | _ => some none

structure Player where
  name : String
  deck : List Card
deriving DecidableEq

/-- The game state dict of the source.  The outcome text key is created only
by the play handler in the source; the model carries it from the start with
the empty string as the initial content. -/
structure GameState where
  players : List Player
  active : Nat
  phase : String
  chosen_attr : Option String
  played : List (Nat × Card)
  winner : Option Nat
  round : Nat
  pot : List Card
  outcome_text : String
deriving DecidableEq

/-- Indexes of the players still holding cards, in ascending index order. -/
def alive_player_indexes (s : GameState) : List Nat :=
  (s.players.enum.filter (fun x => decide (0 < x.2.deck.length))).map Prod.fst

/-- The played map of a round: every alive player contributes the head of its
deck, keyed by the player index, in ascending index order, exactly as the
source builds the played dict by iterating the alive list. -/
def playedOf (s : GameState) : List (Nat × Card) :=
  s.players.enum.filterMap (fun x => x.2.deck.head?.map (fun c => (x.1, c)))

/-- The decks after every alive player popped its top card; an empty deck is
unchanged, which matches popping over the alive players only. -/
def popTops (players : List Player) : List Player :=
  players.map (fun p => { p with deck := p.deck.tail })

/-- The player list with the deck of player w extended by ws at the end. -/
def extendDeckAt : List Player → Nat → List Card → List Player
  | [], _, _ => []
  | p :: ps, 0, ws => { p with deck := p.deck ++ ws } :: ps
  | p :: ps, Nat.succ w, ws => p :: extendDeckAt ps w ws

inductive GameError where
  | invalidPhase
  | keyError
deriving DecidableEq

/-- Embedding of the play handler: requires the choose phase, pops the top
card of every alive player into the played map, resolves the comparison, and
applies the round result (tie: played cards to the pot and rotation of the
active index; win: played cards then the pot to the winner deck).  Calling it
in any other phase is the invalid phase failure of the specification. -/
def playRound (s : GameState) (chosen : String) : Except GameError GameState :=
  if s.phase = "choose" then
    let alive := alive_player_indexes s
    let played := playedOf s
    let players1 := popTops s.players
    match compare_cards played chosen with
    | none => Except.error GameError.keyError
    | some none =>
      let cur_pos := alive.indexOf s.active
      Except.ok { s with
        players := players1
        active := alive.getD ((cur_pos + 1) % alive.length) 0
        phase := "reveal"
        chosen_attr := some chosen
        played := played
        winner := none
        pot := s.pot ++ played.map Prod.snd
        outcome_text := "Tie — cards go to pot." }
    | some (some w) =>
      let winnings := played.map Prod.snd ++ s.pot
      Except.ok { s with
        players := extendDeckAt players1 w winnings
        active := w
        phase := "reveal"
        chosen_attr := some chosen
        played := played
        winner := some w
        pot := []
        outcome_text :=
          (s.players.getD w { name := "", deck := [] }).name ++ " wins the round!" }
  else Except.error GameError.invalidPhase

/-- Embedding of the next round handler: requires the reveal phase, clears the
reveal data, increments the round counter and returns to the choose phase.
Decks, pot and active index are untouched. -/
def advanceRound (s : GameState) : Except GameError GameState :=
  if s.phase = "reveal" then
    Except.ok { s with
      played := []
      chosen_attr := none
      winner := none
      outcome_text := ""
      phase := "choose"
      round := s.round + 1 }
  else Except.error GameError.invalidPhase

/-- The active index repair the source runs before redisplaying: if the active
index is no longer alive, it is reassigned to the first alive index. -/
def repairActive (s : GameState) : GameState :=
  let alive := alive_player_indexes s
  if s.active ∈ alive then s else { s with active := alive.headD 0 }

/-- Embedding of start_new_game on an already shuffled catalog (the uniform
shuffle of the source is the input list here): the card at position idx goes
to player idx mod num_players, keeping order, and the fields are initialized. -/
def start_new_game (cards : List Card) (num_players : Nat) : GameState :=
  { players := (List.range num_players).map (fun i =>
      { name := "Player " ++ toString (i + 1)
        deck := (cards.enum.filter
          (fun x => decide (x.1 % num_players = i))).map Prod.snd })
    active := 0
    phase := "choose"
    chosen_attr := none
    played := []
    winner := none
    round := 1
    pot := []
    outcome_text := "" }

/-- The conserved quantity: all deck sizes plus the pot size. -/
def totalCards (s : GameState) : Nat :=
  (s.players.map (fun p => p.deck.length)).sum + s.pot.length

/-- Extracts the success state of a round operation, with a fallback. -/
def okOr (d : GameState) : Except GameError GameState → GameState
  | Except.ok s => s
  | Except.error _ => d

/-! Concrete cards and states used by the closed instances below. -/

def tsCard (v : ℚ) : Card := ⟨0, "TS", [("top_speed", some v)], none⟩

def accCard (v : ℚ) : Card := ⟨0, "ACC", [("acceleration", some v)], none⟩

def hpCard (v : ℚ) : Card := ⟨0, "HP", [("horsepower", some v)], none⟩

def nullCard : Card := ⟨0, "NULL", [], none⟩

/-- A three player game, one card each, all with equal horsepower. -/
def gThree : GameState :=
  ⟨[⟨"P1", [hpCard 500]⟩, ⟨"P2", [hpCard 500]⟩, ⟨"P3", [hpCard 500]⟩],
    0, "choose", none, [], none, 1, [], ""⟩

/-- A two player game whose first two horsepower rounds tie and whose third is
won by player 0. -/
def gTwo : GameState :=
  ⟨[⟨"P1", [hpCard 500, hpCard 400, hpCard 700]⟩,
    ⟨"P2", [hpCard 500, hpCard 400, hpCard 600]⟩],
    0, "choose", none, [], none, 1, [], ""⟩

/-! Order lemmas for scores. -/

lemma scoreLe_refl (a : Score) : Score.le a a = true := by
  cases a <;> simp [Score.le]

lemma scoreLe_trans {a b c : Score} (h1 : Score.le a b = true)
    (h2 : Score.le b c = true) : Score.le a c = true := by
  (cases a <;> cases b <;> cases c <;> simp_all [Score.le])
  exact le_trans h1 h2

lemma scoreLe_total (a b : Score) : Score.le a b = true ∨ Score.le b a = true := by
  (cases a <;> cases b <;> simp [Score.le])
  exact le_total _ _

lemma le_maxScore_left (a b : Score) : Score.le a (maxScore a b) = true := by
  unfold maxScore
  cases hab : Score.le a b with
  | true => simp [hab]
  | false => simp [scoreLe_refl]

lemma le_maxScore_right (a b : Score) : Score.le b (maxScore a b) = true := by
  unfold maxScore
  cases hab : Score.le a b with
  | true => simp [scoreLe_refl]
  | false =>
    simp only [hab, Bool.false_eq_true, if_false]
    rcases scoreLe_total a b with h | h
    · rw [h] at hab; cases hab
    · exact h

lemma minScore_le_left (a b : Score) : Score.le (minScore a b) a = true := by
  unfold minScore
  cases hba : Score.le b a with
  | true => simp [hba]
  | false => simp [scoreLe_refl]

lemma minScore_le_right (a b : Score) : Score.le (minScore a b) b = true := by
  unfold minScore
  cases hba : Score.le b a with
  | true => simp [scoreLe_refl]
  | false =>
    simp only [hba, Bool.false_eq_true, if_false]
    rcases scoreLe_total b a with h | h
    · rw [h] at hba; cases hba
    · exact h

/-- A fold of maxScore is an upper bound of the start value and all fold
elements. -/
lemma le_foldl_maxScore (l : List Score) :
    ∀ acc x, (x = acc ∨ x ∈ l) → Score.le x (l.foldl maxScore acc) = true := by
  induction l with
  | nil =>
    intro acc x hx
    rcases hx with rfl | h
    · exact scoreLe_refl x
    · simp at h
  | cons b t ih =>
    intro acc x hx
    simp only [List.foldl_cons]
    rcases hx with rfl | hmem
    · exact scoreLe_trans (le_maxScore_left x b) (ih (maxScore x b) _ (Or.inl rfl))
    · rcases List.mem_cons.mp hmem with rfl | hxt
      · exact scoreLe_trans (le_maxScore_right acc x) (ih (maxScore acc x) _ (Or.inl rfl))
      · exact ih (maxScore acc b) x (Or.inr hxt)

/-- A fold of minScore is a lower bound of the start value and all fold
elements. -/
lemma foldl_minScore_le (l : List Score) :
    ∀ acc x, (x = acc ∨ x ∈ l) → Score.le (l.foldl minScore acc) x = true := by
  induction l with
  | nil =>
    intro acc x hx
    rcases hx with rfl | h
    · exact scoreLe_refl x
    · simp at h
  | cons b t ih =>
    intro acc x hx
    simp only [List.foldl_cons]
    rcases hx with rfl | hmem
    · exact scoreLe_trans (ih (minScore x b) _ (Or.inl rfl)) (minScore_le_left x b)
    · rcases List.mem_cons.mp hmem with rfl | hxt
      · exact scoreLe_trans (ih (minScore acc x) _ (Or.inl rfl)) (minScore_le_right acc x)
      · exact ih (minScore acc b) x (Or.inr hxt)

/-! Lemmas about the rule table. -/

lemma lookup_mem {α β : Type} [BEq α] [LawfulBEq α] :
    ∀ (l : List (α × β)) (a : α) (r : β), l.lookup a = some r → (a, r) ∈ l := by
  intro l a r h
  induction l with
  | nil => simp [List.lookup] at h
  | cons p t ih =>
    obtain ⟨k, v⟩ := p
    cases hk : a == k with
    | true =>
      rw [List.lookup, hk] at h
      have hk2 : a = k := eq_of_beq hk
      have hv : v = r := by simpa using h
      subst hk2; subst hv
      exact List.mem_cons_self _ _
    | false =>
      rw [List.lookup, hk] at h
      exact List.mem_cons_of_mem _ (ih h)

/-! Lemmas about the played map, the alive list and the deck updates. -/

lemma enumFrom_cons (n : Nat) (p : Player) (t : List Player) :
    List.enumFrom n (p :: t) = (n, p) :: List.enumFrom (n + 1) t := rfl

lemma playedFrom_bounds : ∀ (ps : List Player) (n : Nat) (x : Nat × Card),
    x ∈ (List.enumFrom n ps).filterMap
      (fun x => x.2.deck.head?.map (fun c => (x.1, c))) →
    n ≤ x.1 ∧ x.1 < n + ps.length := by
  intro ps
  induction ps with
  | nil => intro n x hx; simp [List.enumFrom] at hx
  | cons p t ih =>
    intro n x hx
    rw [enumFrom_cons, List.filterMap_cons] at hx
    cases hd : p.deck with
    | nil =>
      simp only [hd, List.head?_nil, Option.map_none'] at hx
      have := ih (n + 1) x hx
      simp only [List.length_cons]
      omega
    | cons c d =>
      simp only [hd, List.head?_cons, Option.map_some'] at hx
      rcases List.mem_cons.mp hx with rfl | hmem
      · constructor <;> simp [List.length_cons]
      · have := ih (n + 1) x hmem
        simp only [List.length_cons]
        omega

lemma playedFrom_length : ∀ (ps : List Player) (n : Nat),
    ((List.enumFrom n ps).filterMap
      (fun x => x.2.deck.head?.map (fun c => (x.1, c)))).length
      + ((popTops ps).map (fun p => p.deck.length)).sum
      = (ps.map (fun p => p.deck.length)).sum := by
  intro ps
  induction ps with
  | nil => intro n; simp [List.enumFrom, popTops]
  | cons p t ih =>
    intro n
    rw [enumFrom_cons, List.filterMap_cons]
    cases hd : p.deck with
    | nil =>
      simp only [popTops, List.map_cons, hd, List.head?_nil, Option.map_none',
        List.tail_nil, List.length_nil, List.sum_cons]
      have := ih (n + 1)
      simp only [popTops] at this
      omega
    | cons c d =>
      simp only [popTops, List.map_cons, hd, List.head?_cons, Option.map_some',
        List.tail_cons, List.length_cons, List.sum_cons]
      have := ih (n + 1)
      simp only [popTops] at this
      omega

lemma playedFrom_sorted : ∀ (ps : List Player) (n : Nat),
    (((List.enumFrom n ps).filterMap
      (fun x => x.2.deck.head?.map (fun c => (x.1, c)))).map Prod.fst).Pairwise
      (· < ·) := by
  intro ps
  induction ps with
  | nil => intro n; simp [List.enumFrom]
  | cons p t ih =>
    intro n
    rw [enumFrom_cons, List.filterMap_cons]
    cases hd : p.deck with
    | nil =>
      simp only [hd, List.head?_nil, Option.map_none']
      exact ih (n + 1)
    | cons c d =>
      simp only [hd, List.head?_cons, Option.map_some', List.map_cons]
      refine List.pairwise_cons.mpr ⟨?_, ih (n + 1)⟩
      intro k hk
      obtain ⟨x, hx, rfl⟩ := List.mem_map.mp hk
      have := (playedFrom_bounds t (n + 1) x hx).1
      omega

lemma aliveFrom_bounds : ∀ (ps : List Player) (n : Nat) (k : Nat),
    k ∈ ((List.enumFrom n ps).filter
      (fun x => decide (0 < x.2.deck.length))).map Prod.fst →
    n ≤ k ∧ k < n + ps.length := by
  intro ps
  induction ps with
  | nil => intro n k hk; simp [List.enumFrom] at hk
  | cons p t ih =>
    intro n k hk
    rw [enumFrom_cons, List.filter_cons] at hk
    by_cases hp : 0 < p.deck.length
    · simp only [hp, decide_True, if_true, List.map_cons] at hk
      rcases List.mem_cons.mp hk with rfl | hmem
      · constructor <;> simp [List.length_cons]
      · have := ih (n + 1) k hmem
        simp only [List.length_cons]
        omega
    · simp only [hp, decide_False, if_false] at hk
      have := ih (n + 1) k hk
      simp only [List.length_cons]
      omega

lemma aliveFrom_sorted : ∀ (ps : List Player) (n : Nat),
    (((List.enumFrom n ps).filter
      (fun x => decide (0 < x.2.deck.length))).map Prod.fst).Pairwise (· < ·) := by
  intro ps
  induction ps with
  | nil => intro n; simp [List.enumFrom]
  | cons p t ih =>
    intro n
    rw [enumFrom_cons, List.filter_cons]
    by_cases hp : 0 < p.deck.length
    · simp only [hp, decide_True, if_true, List.map_cons]
      refine List.pairwise_cons.mpr ⟨?_, ih (n + 1)⟩
      intro k hk
      have := (aliveFrom_bounds t (n + 1) k hk).1
      omega
    · simp only [hp, decide_False, if_false]
      exact ih (n + 1)

lemma headD_mem {l : List Nat} (h : l ≠ []) (d : Nat) : l.headD d ∈ l := by
  cases l with
  | nil => exact absurd rfl h
  | cons a t => simp [List.headD]

lemma extendDeckAt_sum : ∀ (ps : List Player) (w : Nat) (ws : List Card),
    w < ps.length →
    ((extendDeckAt ps w ws).map (fun p => p.deck.length)).sum
      = (ps.map (fun p => p.deck.length)).sum + ws.length := by
  intro ps
  induction ps with
  | nil => intro w ws h; simp at h
  | cons p t ih =>
    intro w ws h
    cases w with
    | zero => simp [extendDeckAt]; omega
    | succ w =>
      simp only [extendDeckAt, List.map_cons, List.sum_cons]
      rw [ih w ws (by simpa using h)]
      omega

lemma extendDeckAt_get_self : ∀ (ps : List Player) (w : Nat) (ws : List Card)
    (p : Player), ps[w]? = some p →
    (extendDeckAt ps w ws)[w]? = some { p with deck := p.deck ++ ws } := by
  intro ps
  induction ps with
  | nil => intro w ws p h; simp at h
  | cons q t ih =>
    intro w ws p h
    cases w with
    | zero =>
      simp only [List.getElem?_cons_zero, Option.some.injEq] at h
      subst h
      simp [extendDeckAt]
    | succ w =>
      simp only [List.getElem?_cons_succ] at h
      simpa [extendDeckAt] using ih w ws p h

lemma extendDeckAt_get_ne : ∀ (ps : List Player) (w : Nat) (ws : List Card)
    (j : Nat), j ≠ w → (extendDeckAt ps w ws)[j]? = ps[j]? := by
  intro ps
  induction ps with
  | nil => intro w ws j h; simp [extendDeckAt]
  | cons q t ih =>
    intro w ws j h
    cases w with
    | zero =>
      cases j with
      | zero => exact absurd rfl h
      | succ j => simp [extendDeckAt]
    | succ w =>
      cases j with
      | zero => simp [extendDeckAt]
      | succ j =>
        simp only [extendDeckAt, List.getElem?_cons_succ]
        exact ih w ws j (by omega)

lemma rule_of_lookup {a r : String} (h : RULES.lookup a = some r) :
    r = "higher" ∨ r = "lower" := by
  have hm := lookup_mem RULES a r h
  simp only [RULES, List.mem_cons, List.not_mem_nil, or_false, Prod.mk.injEq] at hm
  rcases hm with ⟨_, rfl⟩ | ⟨_, rfl⟩ | ⟨_, rfl⟩ | ⟨_, rfl⟩ | ⟨_, rfl⟩ | ⟨_, rfl⟩ |
    ⟨_, rfl⟩ | ⟨_, rfl⟩ <;> simp

/-- When compare_cards declares a winner, that winner posted a non-null value
for the compared attribute. -/
lemma win_mem {cbp : List (Nat × Card)} {attr : String} {w : Nat}
    (h : compare_cards cbp attr = some (some w)) :
    ∃ c, (w, c) ∈ cbp ∧ (getAttr c attr).isSome = true := by
  unfold compare_cards at h
  cases hrule : RULES.lookup attr with
  | none => rw [hrule] at h; simp at h
  | some rule =>
    rw [hrule] at h
    simp only [] at h
    by_cases hall : ((cbp.map (fun x => (x.1, getAttr x.2 attr))).all
        (fun x => x.2.isNone)) = true
    · rw [if_pos hall] at h; simp at h
    · rw [if_neg hall] at h
      cases hcbp : cbp with
      | nil => subst hcbp; simp at hall
      | cons a l =>
        subst hcbp
        simp only [List.map_cons] at h
        split at h
        swap
        · simp at h
        rename_i ws w0 heq
        · injection h with h1
          injection h1 with h2
          subst h2
          have hw : w0 ∈ List.map Prod.fst
              (List.filter
                (fun x => decide (x.2 =
                  List.foldl (if rule = "higher" then maxScore else minScore)
                    (scoreOf rule (getAttr a.2 attr))
                    (List.map Prod.snd
                      (List.map (fun x => (x.1, scoreOf rule x.2))
                        (List.map (fun x => (x.1, getAttr x.2 attr)) l)))))
                ((a.1, scoreOf rule (getAttr a.2 attr)) ::
                  List.map (fun x => (x.1, scoreOf rule x.2))
                    (List.map (fun x => (x.1, getAttr x.2 attr)) l))) := by
            rw [heq]; exact List.mem_singleton.mpr rfl
          obtain ⟨e, he, hefst⟩ := List.mem_map.mp hw
          obtain ⟨hesc, hqe⟩ := List.mem_filter.mp he
          have hbest : e.2 =
              List.foldl (if rule = "higher" then maxScore else minScore)
                (scoreOf rule (getAttr a.2 attr))
                (List.map Prod.snd
                  (List.map (fun x => (x.1, scoreOf rule x.2))
                    (List.map (fun x => (x.1, getAttr x.2 attr)) l))) :=
            of_decide_eq_true hqe
          have hesc2 : e ∈ List.map
              (fun x => (x.1, scoreOf rule (getAttr x.2 attr))) (a :: l) := by
            simpa [List.map_map, Function.comp] using hesc
          obtain ⟨x, hxmem, hxe⟩ := List.mem_map.mp hesc2
          have hex : ∃ y ∈ a :: l, (getAttr y.2 attr).isNone = false := by
            by_contra hcon
            push_neg at hcon
            apply hall
            rw [List.all_eq_true]
            intro z hz
            obtain ⟨y, hy, rfl⟩ := List.mem_map.mp hz
            have := hcon y hy
            simpa using this
          obtain ⟨y, hy, hyv⟩ := hex
          obtain ⟨q0, hq0⟩ : ∃ q0, getAttr y.2 attr = some q0 := by
            cases hv : getAttr y.2 attr with
            | none => rw [hv] at hyv; simp at hyv
            | some q0 => exact ⟨q0, rfl⟩
          cases hv : getAttr x.2 attr with
          | some q =>
            have hx1 : x.1 = w0 := by rw [← hxe] at hefst; exact hefst
            refine ⟨x.2, ?_, by rw [hv]; rfl⟩
            have hxw : (w0, x.2) = x := by rw [← hx1]
            rw [hxw]
            exact hxmem
          | none =>
            exfalso
            rw [hv] at hxe
            have hbest2 : scoreOf rule none =
                List.foldl (if rule = "higher" then maxScore else minScore)
                  (scoreOf rule (getAttr a.2 attr))
                  (List.map Prod.snd
                    (List.map (fun x => (x.1, scoreOf rule x.2))
                      (List.map (fun x => (x.1, getAttr x.2 attr)) l))) := by
              rw [← hbest, ← hxe]
            have hmem0 : Score.fin q0 = scoreOf rule (getAttr a.2 attr) ∨
                Score.fin q0 ∈ List.map Prod.snd
                  (List.map (fun x => (x.1, scoreOf rule x.2))
                    (List.map (fun x => (x.1, getAttr x.2 attr)) l)) := by
              rcases List.mem_cons.mp hy with rfl | hyl
              · left; rw [hq0]; simp [scoreOf]
              · right
                simp only [List.map_map, List.mem_map]
                refine ⟨y, hyl, ?_⟩
                simp [Function.comp, hq0, scoreOf]
            rcases rule_of_lookup hrule with rfl | rfl
            · have hop : (if ("higher" : String) = "higher"
                  then maxScore else minScore) = maxScore := by simp
              rw [hop] at hbest2
              have hsc : scoreOf "higher" (none : Option ℚ) = Score.neginf := by
                simp [scoreOf]
              rw [hsc] at hbest2
              have hub := le_foldl_maxScore _ _ _ hmem0
              rw [← hbest2] at hub
              simp [Score.le] at hub
            · have hop : (if ("lower" : String) = "higher"
                  then maxScore else minScore) = minScore := by simp
              rw [hop] at hbest2
              have hsc : scoreOf "lower" (none : Option ℚ) = Score.posinf := by
                simp [scoreOf]
              rw [hsc] at hbest2
              have hlb := foldl_minScore_le _ _ _ hmem0
              rw [← hbest2] at hlb
              simp [Score.le] at hlb

/-- If every entry of the played map has a null value for the attribute, the
comparison is a tie. -/
lemma compare_all_none {cbp : List (Nat × Card)} {attr rule : String}
    (hrule : RULES.lookup attr = some rule)
    (hall : ∀ x ∈ cbp, getAttr x.2 attr = none) :
    compare_cards cbp attr = some none := by
  have hb : ((cbp.map (fun x => (x.1, getAttr x.2 attr))).all
      (fun x => x.2.isNone)) = true := by
    rw [List.all_eq_true]
    intro z hz
    obtain ⟨x, hx, rfl⟩ := List.mem_map.mp hz
    simp [hall x hx]
  unfold compare_cards
  rw [hrule]
  simp only [hb, if_true]

/-- In a list with no duplicate keys, a key determines its value. -/
lemma keys_nodup_unique {l : List (Nat × Card)} {i : Nat} {c c2 : Card}
    (hnd : (l.map Prod.fst).Nodup) (h1 : (i, c) ∈ l) (h2 : (i, c2) ∈ l) :
    c = c2 := by
  induction l with
  | nil => simp at h1
  | cons a t ih =>
    simp only [List.map_cons, List.nodup_cons] at hnd
    rcases List.mem_cons.mp h1 with rfl | hm1
    · rcases List.mem_cons.mp h2 with he | hm2
      · exact (congrArg Prod.snd he.symm : _)
      · exfalso
        exact hnd.1 (List.mem_map.mpr ⟨(i, c2), hm2, rfl⟩)
    · rcases List.mem_cons.mp h2 with rfl | hm2
      · exfalso
        exact hnd.1 (List.mem_map.mpr ⟨(i, c), hm1, rfl⟩)
      · exact ih hnd.2 hm1 hm2

/-- Inversion of a successful playRound call: the phase was choose and the
result is the tie update or the win update of the source handler. -/
lemma playRound_ok_cases {s : GameState} {chosen : String} {s2 : GameState}
    (h : playRound s chosen = Except.ok s2) :
    s.phase = "choose" ∧
    ((compare_cards (playedOf s) chosen = some none ∧
        s2 = { s with
          players := popTops s.players
          active := (alive_player_indexes s).getD
            (((alive_player_indexes s).indexOf s.active + 1)
              % (alive_player_indexes s).length) 0
          phase := "reveal"
          chosen_attr := some chosen
          played := playedOf s
          winner := none
          pot := s.pot ++ (playedOf s).map Prod.snd
          outcome_text := "Tie — cards go to pot." }) ∨
      (∃ w, compare_cards (playedOf s) chosen = some (some w) ∧
        s2 = { s with
          players := extendDeckAt (popTops s.players) w
            ((playedOf s).map Prod.snd ++ s.pot)
          active := w
          phase := "reveal"
          chosen_attr := some chosen
          played := playedOf s
          winner := some w
          pot := []
          outcome_text :=
            (s.players.getD w { name := "", deck := [] }).name
              ++ " wins the round!" })) := by
  unfold playRound at h
  by_cases hph : s.phase = "choose"
  · rw [if_pos hph] at h
    simp only [] at h
    refine ⟨hph, ?_⟩
    cases hcmp : compare_cards (playedOf s) chosen with
    | none => rw [hcmp] at h; simp at h
    | some o =>
      rw [hcmp] at h
      cases o with
      | none =>
        left
        refine ⟨rfl, ?_⟩
        simp only [Except.ok.injEq] at h
        exact h.symm
      | some w =>
        right
        refine ⟨w, rfl, ?_⟩
        simp only [Except.ok.injEq] at h
        exact h.symm
  · rw [if_neg hph] at h
    simp at h

lemma playedOf_length (s : GameState) :
    (playedOf s).length + ((popTops s.players).map (fun p => p.deck.length)).sum
      = (s.players.map (fun p => p.deck.length)).sum :=
  playedFrom_length s.players 0

lemma win_lt {s : GameState} {chosen : String} {w : Nat}
    (h : compare_cards (playedOf s) chosen = some (some w)) :
    w < s.players.length := by
  obtain ⟨c, hc, _⟩ := win_mem h
  have := playedFrom_bounds s.players 0 (w, c) hc
  simpa using this.2

/-- C1: the sum of all player deck sizes plus the pot size is unchanged by
every successful playRound and every successful advanceRound call: cards are
neither created nor destroyed after the one time deal. -/
theorem C1_conservation : ∀ s : GameState,
    (∀ chosen s2, playRound s chosen = Except.ok s2 →
      totalCards s2 = totalCards s) ∧
    (∀ s2, advanceRound s = Except.ok s2 → totalCards s2 = totalCards s) := by
  intro s
  constructor
  · intro chosen s2 h
    obtain ⟨hph, hcase⟩ := playRound_ok_cases h
    rcases hcase with ⟨hcmp, rfl⟩ | ⟨w, hcmp, rfl⟩
    · have hlen := playedOf_length s
      simp only [totalCards, List.length_append, List.length_map]
      omega
    · have hlen := playedOf_length s
      have hw : w < (popTops s.players).length := by
        have := win_lt hcmp
        simpa [popTops] using this
      have hsum := extendDeckAt_sum (popTops s.players) w
        ((playedOf s).map Prod.snd ++ s.pot) hw
      simp only [totalCards, List.length_nil]
      rw [hsum]
      simp only [List.length_append, List.length_map]
      omega
  · intro s2 h
    unfold advanceRound at h
    by_cases hph : s.phase = "reveal"
    · rw [if_pos hph] at h
      simp only [Except.ok.injEq] at h
      subst h
      simp [totalCards]
    · rw [if_neg hph] at h
      simp at h

/-- Closed instance of C1: conservation across a concrete tie round of the
three player game. -/
theorem C1_conservation_witness :
    totalCards (okOr gThree (playRound gThree "horsepower"))
      = totalCards gThree :=
  (C1_conservation gThree).1 "horsepower"
    (okOr gThree (playRound gThree "horsepower")) rfl

/-- A state whose previously active player has an empty deck. -/
def gDead : GameState :=
  ⟨[⟨"P1", []⟩, ⟨"P2", [hpCard 500]⟩], 0, "choose", none, [], none, 1, [], ""⟩

/-- C8: calling playRound in any phase other than choose (in particular in the
reveal phase), or advanceRound in any phase other than reveal, fails with the
invalid phase error; the embedding returns only the error, so no state field
is mutated. -/
theorem C8_phase_contract : ∀ (s : GameState) (chosen : String),
    (s.phase ≠ "choose" →
      playRound s chosen = Except.error GameError.invalidPhase) ∧
    (s.phase ≠ "reveal" →
      advanceRound s = Except.error GameError.invalidPhase) := by
  intro s chosen
  constructor
  · intro h
    unfold playRound
    rw [if_neg h]
  · intro h
    unfold advanceRound
    rw [if_neg h]

/-- Closed instance of C8 at a concrete reveal phase state and a concrete
choose phase state. -/
theorem C8_phase_contract_witness :
    playRound { gThree with phase := "reveal" } "horsepower"
      = Except.error GameError.invalidPhase ∧
    advanceRound gThree = Except.error GameError.invalidPhase :=
  ⟨(C8_phase_contract { gThree with phase := "reveal" } "horsepower").1
      (by decide),
    (C8_phase_contract gThree "horsepower").2 (by decide)⟩

/-- C7: active index repair before the choose phase is shown: a state whose
active index is alive is unchanged; otherwise active is reassigned to the
first alive index, the lowest one since the alive list is strictly ascending;
after the repair the active index belongs to a player with a non-empty deck
whenever any alive player exists. -/
theorem C7_active_repair : ∀ s : GameState,
    (s.active ∈ alive_player_indexes s → repairActive s = s) ∧
    (s.active ∉ alive_player_indexes s →
      repairActive s = { s with active := (alive_player_indexes s).headD 0 }) ∧
    (alive_player_indexes s).Pairwise (· < ·) ∧
    (alive_player_indexes s ≠ [] →
      (repairActive s).active ∈ alive_player_indexes (repairActive s)) := by
  intro s
  have hsort : (alive_player_indexes s).Pairwise (· < ·) :=
    aliveFrom_sorted s.players 0
  refine ⟨?_, ?_, hsort, ?_⟩
  · intro h
    unfold repairActive
    simp only []
    rw [if_pos h]
  · intro h
    unfold repairActive
    simp only []
    rw [if_neg h]
  · intro hne
    unfold repairActive
    simp only []
    by_cases h : s.active ∈ alive_player_indexes s
    · rw [if_pos h]
      exact h
    · rw [if_neg h]
      exact headD_mem hne 0

/-- Closed instance of C7: a dead active index is reassigned to the first
alive index. -/
theorem C7_active_repair_witness :
    repairActive gDead
      = { gDead with active := (alive_player_indexes gDead).headD 0 } :=
  (C7_active_repair gDead).2.1 (by decide)

/-- A two player game decided in one round by player 0. -/
def gWin : GameState :=
  ⟨[⟨"P1", [hpCard 700]⟩, ⟨"P2", [hpCard 600]⟩],
    0, "choose", none, [], none, 1, [], ""⟩

/-- C4: when playRound resolves to a tie, all played cards are appended to the
pot in ascending player index order (the played keys are strictly ascending),
and active becomes the next alive index after the current one in the alive
sequence of the round, wrapping around; in the three player game with active
index 0 and an all-three tie, active becomes 1. -/
theorem C4_tie_branch :
    (∀ (s : GameState) (chosen : String) (s2 : GameState),
      playRound s chosen = Except.ok s2 → s2.winner = none →
      s2.pot = s.pot ++ (playedOf s).map Prod.snd ∧
      ((playedOf s).map Prod.fst).Pairwise (· < ·) ∧
      s2.active = (alive_player_indexes s).getD
        (((alive_player_indexes s).indexOf s.active + 1)
          % (alive_player_indexes s).length) 0) ∧
    (playRound gThree "horsepower").toOption.map (fun t => (t.active, t.winner))
      = some (1, none) := by
  constructor
  · intro s chosen s2 h hw
    obtain ⟨hph, hcase⟩ := playRound_ok_cases h
    rcases hcase with ⟨hcmp, rfl⟩ | ⟨w, hcmp, rfl⟩
    · exact ⟨rfl, playedFrom_sorted s.players 0, rfl⟩
    · simp at hw
  · rfl

/-- Closed instance of C4: the pot after the concrete three way tie holds the
previous pot followed by the played cards. -/
theorem C4_tie_branch_witness :
    (okOr gThree (playRound gThree "horsepower")).pot
      = gThree.pot ++ (playedOf gThree).map Prod.snd :=
  (C4_tie_branch.1 gThree "horsepower"
    (okOr gThree (playRound gThree "horsepower")) rfl rfl).1

/-- C5: when playRound resolves to a winner, that player deck receives the
played cards of the round followed by the whole pot, the pot becomes empty and
active becomes the winner index; the other decks keep their popped value; two
consecutive ties followed by a decisive win transfer the cards of all three
rounds to the winner and leave the pot empty, as the concrete run shows. -/
theorem C5_win_branch :
    (∀ (s : GameState) (chosen : String) (s2 : GameState) (w : Nat),
      playRound s chosen = Except.ok s2 → s2.winner = some w →
      s2.pot = [] ∧ s2.active = w ∧
      (∀ p, (popTops s.players)[w]? = some p →
        s2.players[w]? = some { p with deck :=
          p.deck ++ ((playedOf s).map Prod.snd ++ s.pot) }) ∧
      (∀ j, j ≠ w → s2.players[j]? = (popTops s.players)[j]?)) ∧
    ((do
        let s1 ← playRound gTwo "horsepower"
        let s2 ← advanceRound s1
        let s3 ← playRound s2 "horsepower"
        let s4 ← advanceRound s3
        playRound s4 "horsepower" : Except GameError GameState)).toOption.map
        (fun t => (t.players.map (fun p => p.deck), t.pot, t.active, t.winner))
      = some ([[hpCard 700, hpCard 600, hpCard 500, hpCard 500,
          hpCard 400, hpCard 400], []], [], 0, some 0) := by
  constructor
  · intro s chosen s2 w h hw
    obtain ⟨hph, hcase⟩ := playRound_ok_cases h
    rcases hcase with ⟨hcmp, rfl⟩ | ⟨w0, hcmp, rfl⟩
    · simp at hw
    · have hww : w0 = w := by simpa using hw
      subst hww
      refine ⟨rfl, rfl, ?_, ?_⟩
      · intro p hp
        exact extendDeckAt_get_self (popTops s.players) w0
          ((playedOf s).map Prod.snd ++ s.pot) p hp
      · intro j hj
        exact extendDeckAt_get_ne (popTops s.players) w0
          ((playedOf s).map Prod.snd ++ s.pot) j hj
  · rfl

/-- Closed instance of C5: pot emptied and active set to the winner after a
concrete decisive round. -/
theorem C5_win_branch_witness :
    (okOr gWin (playRound gWin "horsepower")).pot = [] ∧
    (okOr gWin (playRound gWin "horsepower")).active = 0 := by
  have h := C5_win_branch.1 gWin "horsepower"
    (okOr gWin (playRound gWin "horsepower")) 0 rfl rfl
  exact ⟨h.1, h.2.1⟩

/-! Counting lemmas for the round robin deal. -/

lemma length_filter_mod2 (i : Nat) (hi : i < 2) : ∀ C : Nat,
    ((List.range C).filter (fun k => decide (k % 2 = i))).length
      = (C + 1 - i) / 2 := by
  intro C
  induction C with
  | zero => simp; omega
  | succ c ih =>
    rw [List.range_succ, List.filter_append, List.length_append, ih]
    cases hd : (decide (c % 2 = i)) with
    | true =>
      have hci := of_decide_eq_true hd
      simp only [List.filter_cons, List.filter_nil, hd, if_true,
        List.length_cons, List.length_nil]
      omega
    | false =>
      have hci := of_decide_eq_false hd
      simp only [List.filter_cons, List.filter_nil, hd, Bool.false_eq_true,
        if_false, List.length_nil]
      omega

lemma length_filter_mod3 (i : Nat) (hi : i < 3) : ∀ C : Nat,
    ((List.range C).filter (fun k => decide (k % 3 = i))).length
      = (C + 2 - i) / 3 := by
  intro C
  induction C with
  | zero => simp; omega
  | succ c ih =>
    rw [List.range_succ, List.filter_append, List.length_append, ih]
    cases hd : (decide (c % 3 = i)) with
    | true =>
      have hci := of_decide_eq_true hd
      simp only [List.filter_cons, List.filter_nil, hd, if_true,
        List.length_cons, List.length_nil]
      omega
    | false =>
      have hci := of_decide_eq_false hd
      simp only [List.filter_cons, List.filter_nil, hd, Bool.false_eq_true,
        if_false, List.length_nil]
      omega

lemma length_filter_mod4 (i : Nat) (hi : i < 4) : ∀ C : Nat,
    ((List.range C).filter (fun k => decide (k % 4 = i))).length
      = (C + 3 - i) / 4 := by
  intro C
  induction C with
  | zero => simp; omega
  | succ c ih =>
    rw [List.range_succ, List.filter_append, List.length_append, ih]
    cases hd : (decide (c % 4 = i)) with
    | true =>
      have hci := of_decide_eq_true hd
      simp only [List.filter_cons, List.filter_nil, hd, if_true,
        List.length_cons, List.length_nil]
      omega
    | false =>
      have hci := of_decide_eq_false hd
      simp only [List.filter_cons, List.filter_nil, hd, Bool.false_eq_true,
        if_false, List.length_nil]
      omega

/-- The deck of player i holds as many cards as there are catalog positions
congruent to i modulo the player count. -/
lemma deal_deck_length (cards : List Card) (N i : Nat) :
    ((cards.enum.filter (fun x => decide (x.1 % N = i))).map Prod.snd).length
      = ((List.range cards.length).filter (fun k => decide (k % N = i))).length := by
  rw [List.length_map, ← List.countP_eq_length_filter,
    ← List.countP_eq_length_filter, ← List.enum_map_fst cards, List.countP_map]
  rfl

/-- C6: for every catalog and every player count in two, three, four, the deal
is round robin (the card at shuffle position idx goes to player idx mod N, in
shuffle order), so the deck sizes sum to the catalog size and differ by at
most one, and the initial state has active 0, choose phase, round 1, empty
pot, empty played map, null chosen attribute and null winner. -/
theorem C6_new_game : ∀ (cards : List Card) (N : Nat),
    (N = 2 ∨ N = 3 ∨ N = 4) →
    ((start_new_game cards N).players.map (fun p => p.deck.length)).sum
        = cards.length ∧
    (∀ a ∈ (start_new_game cards N).players.map (fun p => p.deck.length),
      ∀ b ∈ (start_new_game cards N).players.map (fun p => p.deck.length),
        a ≤ b + 1) ∧
    (∀ i, i < N → ((start_new_game cards N).players.map (fun p => p.deck))[i]?
      = some ((cards.enum.filter
          (fun x => decide (x.1 % N = i))).map Prod.snd)) ∧
    (start_new_game cards N).active = 0 ∧
    (start_new_game cards N).phase = "choose" ∧
    (start_new_game cards N).round = 1 ∧
    (start_new_game cards N).pot = [] ∧
    (start_new_game cards N).played = [] ∧
    (start_new_game cards N).chosen_attr = none ∧
    (start_new_game cards N).winner = none := by
  intro cards N hN
  have hdeck : (start_new_game cards N).players.map (fun p => p.deck.length)
      = (List.range N).map (fun i =>
          ((cards.enum.filter
            (fun x => decide (x.1 % N = i))).map Prod.snd).length) := by
    simp only [start_new_game, List.map_map]
    rfl
  have hval : ∀ i, i < N →
      ((cards.enum.filter
        (fun x => decide (x.1 % N = i))).map Prod.snd).length
        = (cards.length + N - 1 - i) / N := by
    intro i hi
    rw [deal_deck_length]
    rcases hN with rfl | rfl | rfl
    · rw [length_filter_mod2 i hi]; omega
    · rw [length_filter_mod3 i hi]; omega
    · rw [length_filter_mod4 i hi]; omega
  refine ⟨?_, ?_, ?_, rfl, rfl, rfl, rfl, rfl, rfl, rfl⟩
  · rw [hdeck]
    have hcongr : (List.range N).map (fun i =>
        ((cards.enum.filter
          (fun x => decide (x.1 % N = i))).map Prod.snd).length)
        = (List.range N).map (fun i => (cards.length + N - 1 - i) / N) := by
      apply List.map_congr_left
      intro i hi
      exact hval i (List.mem_range.mp hi)
    rw [hcongr]
    rcases hN with rfl | rfl | rfl <;> simp [List.range_succ] <;> omega
  · intro a ha b hb
    rw [hdeck] at ha hb
    obtain ⟨i, hi, rfl⟩ := List.mem_map.mp ha
    obtain ⟨j, hj, rfl⟩ := List.mem_map.mp hb
    rw [hval i (List.mem_range.mp hi), hval j (List.mem_range.mp hj)]
    have hi2 := List.mem_range.mp hi
    have hj2 := List.mem_range.mp hj
    rcases hN with rfl | rfl | rfl <;> omega
  · intro i hi
    simp only [start_new_game, List.map_map, List.getElem?_map,
      List.getElem?_range, hi, if_true]
    rfl

/-- A small concrete catalog for the closed instances. -/
def wCards : List Card := [hpCard 1, hpCard 2, hpCard 3]

/-- Closed instance of C6: three cards over two players sum to three. -/
theorem C6_new_game_witness :
    ((start_new_game wCards 2).players.map (fun p => p.deck.length)).sum
      = wCards.length :=
  (C6_new_game wCards 2 (Or.inl rfl)).1

/-- C9 counterexample: start_new_game on the empty catalog does not fail; it
returns this fully formed state with two players holding empty decks, so a
state is produced for an empty catalog and no empty catalog error exists in
the source. -/
theorem C9_empty_catalog_cex :
    start_new_game [] 2 =
      { players := [{ name := "Player 1", deck := [] },
          { name := "Player 2", deck := [] }],
        active := 0, phase := "choose", chosen_attr := none, played := [],
        winner := none, round := 1, pot := [], outcome_text := "" } := rfl

/-- C9 amended: newGame does not fail on an empty catalog; it succeeds and
returns an initial state with the requested number of players, all decks
empty, in the choose phase with an empty pot. -/
theorem C9_empty_catalog : ∀ N : Nat, (N = 2 ∨ N = 3 ∨ N = 4) →
    (start_new_game [] N).players.map (fun p => p.deck) = List.replicate N [] ∧
    (start_new_game [] N).players.length = N ∧
    (start_new_game [] N).phase = "choose" ∧
    (start_new_game [] N).pot = [] := by
  intro N hN
  rcases hN with rfl | rfl | rfl <;> exact ⟨rfl, rfl, rfl, rfl⟩

/-- Closed instance of the amended C9 at two players. -/
theorem C9_empty_catalog_witness :
    (start_new_game [] 2).players.map (fun p => p.deck)
      = List.replicate 2 [] :=
  (C9_empty_catalog 2 (Or.inl rfl)).1

/-! Lookup lemmas for the loader normalization. -/

lemma lookup_append_of_none {a : String} {l1 l2 : List (String × Option ℚ)}
    (h : List.lookup a l1 = none) :
    List.lookup a (l1 ++ l2) = List.lookup a l2 := by
  induction l1 with
  | nil => simp
  | cons p t ih =>
    obtain ⟨k, v⟩ := p
    cases hk : a == k with
    | true =>
      rw [List.lookup, hk] at h
      simp at h
    | false =>
      rw [List.lookup, hk] at h
      rw [List.cons_append, List.lookup, hk]
      exact ih h

lemma lookup_map_const : ∀ (l : List String) (k : String), k ∈ l →
    List.lookup k (l.map (fun k2 => (k2, (none : Option ℚ)))) = some none := by
  intro l
  induction l with
  | nil => intro k hk; simp at hk
  | cons a t ih =>
    intro k hk
    cases hka : k == a with
    | true =>
      rw [List.map_cons, List.lookup, hka]
    | false =>
      rw [List.map_cons, List.lookup, hka]
      rcases List.mem_cons.mp hk with rfl | hkt
      · rw [beq_self_eq_true] at hka
        cases hka
      · exact ih k hkt

/-- C10: the loader fails with the schema error exactly when some record
lacks id, name or attributes; a successful load returns the normalized
records in order, where every rule key absent from a record attribute table
is inserted with value null and a missing image field becomes null. -/
theorem C10_loader : ∀ raws : List RawCard,
    ((∃ r ∈ raws, rawValid r = false) →
      load_cards raws = Except.error LoadError.schemaError) ∧
    (∀ out, load_cards raws = Except.ok out → out = raws.map normalizeCard) ∧
    (∀ r : RawCard, ∀ k, k ∈ RULES.map Prod.fst →
      (r.attributes.getD []).lookup k = none →
      (normalizeCard r).attributes.lookup k = some none) ∧
    (∀ r : RawCard, r.image = none → (normalizeCard r).image = none) := by
  intro raws
  refine ⟨?_, ?_, ?_, ?_⟩
  · intro hex
    induction raws with
    | nil => obtain ⟨r, hr, _⟩ := hex; simp at hr
    | cons r rs ih =>
      obtain ⟨r0, hr0, hval⟩ := hex
      rw [load_cards]
      rcases List.mem_cons.mp hr0 with rfl | hmem
      · rw [if_neg]
        rw [hval]
        simp
      · by_cases hv : rawValid r
        · rw [if_pos hv, ih ⟨r0, hmem, hval⟩]
        · rw [if_neg hv]
  · induction raws with
    | nil =>
      intro out h
      rw [load_cards] at h
      simp only [Except.ok.injEq] at h
      rw [← h]
      rfl
    | cons r rs ih =>
      intro out h
      rw [load_cards] at h
      by_cases hv : rawValid r
      · rw [if_pos hv] at h
        cases hrec : load_cards rs with
        | ok cs =>
          rw [hrec] at h
          simp only [Except.ok.injEq] at h
          rw [← h, List.map_cons, ih cs hrec]
        | error e =>
          rw [hrec] at h
          simp at h
      · rw [if_neg hv] at h
        simp at h
  · intro r k hk hnone
    unfold normalizeCard
    simp only []
    rw [lookup_append_of_none hnone]
    apply lookup_map_const
    rw [List.mem_filter]
    refine ⟨hk, ?_⟩
    rw [hnone]
    rfl
  · intro r h
    unfold normalizeCard
    simp only []
    rw [h]
    rfl

/-- A record lacking the id field. -/
def badRaw : RawCard := ⟨none, some "X", some [], none⟩

/-- A valid record carrying only a top speed attribute and no image field. -/
def goodRaw : RawCard := ⟨some 1, some "A", some [("top_speed", some 300)], none⟩

/-- Closed instance of C10: the bad record fails the load, and the good
record gets a null horsepower attribute and a null image. -/
theorem C10_loader_witness :
    load_cards [badRaw] = Except.error LoadError.schemaError ∧
    (normalizeCard goodRaw).attributes.lookup "horsepower" = some none ∧
    (normalizeCard goodRaw).image = none :=
  ⟨(C10_loader [badRaw]).1 ⟨badRaw, by simp, rfl⟩,
    (C10_loader [badRaw]).2.2.1 goodRaw "horsepower" (by simp [RULES]) rfl,
    (C10_loader [badRaw]).2.2.2 goodRaw rfl⟩

/-- C3: a null value is scored as the worst score for the active rule
(negative infinity for higher, positive infinity for lower); in any comparison
over a played map with unique keys where player i posted null and some player
posted a concrete value, player i never wins; and when every played value is
null the comparison is a tie. -/
theorem C3_null_handling :
    (scoreOf "higher" none = Score.neginf ∧
      scoreOf "lower" none = Score.posinf) ∧
    (∀ (cbp : List (Nat × Card)) (attr : String) (i : Nat) (c : Card)
        (j : Nat) (c2 : Card) (v : ℚ),
      (cbp.map Prod.fst).Nodup → (RULES.lookup attr).isSome = true →
      (i, c) ∈ cbp → getAttr c attr = none →
      (j, c2) ∈ cbp → getAttr c2 attr = some v →
      compare_cards cbp attr ≠ some (some i)) ∧
    (∀ attr rule, RULES.lookup attr = some rule → ∀ c c2 : Card,
      getAttr c attr = none → getAttr c2 attr = none →
      compare_cards [(1, c), (2, c2)] attr = some none) := by
  refine ⟨⟨rfl, rfl⟩, ?_, ?_⟩
  · intro cbp attr i c j c2 v hnd hr hic hcnone hjc2 hv2 hcontra
    obtain ⟨c0, hc0, hc0some⟩ := win_mem hcontra
    have hcc : c = c0 := keys_nodup_unique hnd hic hc0
    rw [← hcc, hcnone] at hc0some
    simp at hc0some
  · intro attr rule hrule c c2 h1 h2
    apply compare_all_none hrule
    intro x hx
    rcases List.mem_cons.mp hx with rfl | hx2
    · exact h1
    · rcases List.mem_cons.mp hx2 with rfl | hx3
      · exact h2
      · simp at hx3

/-- Closed instance of C3: the null card loses to a concrete horsepower and
two null cards tie. -/
theorem C3_null_handling_witness :
    compare_cards [(1, nullCard), (2, hpCard 500)] "horsepower"
      ≠ some (some 1) ∧
    compare_cards [(1, nullCard), (2, nullCard)] "horsepower" = some none :=
  ⟨C3_null_handling.2.1 [(1, nullCard), (2, hpCard 500)] "horsepower" 1
      nullCard 2 (hpCard 500) 500 (by simp) rfl (by simp) rfl (by simp) rfl,
    C3_null_handling.2.2 "horsepower" "higher" rfl nullCard nullCard rfl rfl⟩

/-- C2 counterexample: for the singleton played map whose only value is null,
the unique index attaining the best score under the higher rule (with null
scored as negative infinity) is 1, yet compare_cards returns null because of
its all-null early exit; the claim as stated predicts 1 here. -/
theorem C2_unique_best_cex :
    compare_cards [(1, nullCard)] "top_speed" = some none ∧
    bestIndexSpec [(1, nullCard)] "top_speed" = some (some 1) := ⟨rfl, rfl⟩

/-- C2 amended: for every played map holding at least one non-null value for
the attribute, compare_cards returns exactly the unique index attaining the
best score under the rule of the attribute (max for higher, min for lower),
and null when several indexes attain it; when every value is null it returns
null even if the map has exactly one entry; the three concrete examples hold
as stated. -/
theorem C2_unique_best :
    (∀ (cbp : List (Nat × Card)) (attr : String) (x : Nat × Card),
      x ∈ cbp → (getAttr x.2 attr).isSome = true →
      compare_cards cbp attr = bestIndexSpec cbp attr) ∧
    compare_cards [(1, tsCard 300), (2, tsCard 250)] "top_speed"
      = some (some 1) ∧
    compare_cards [(1, accCard (16/5)), (2, accCard (14/5))] "acceleration"
      = some (some 2) ∧
    compare_cards [(1, hpCard 500), (2, hpCard 500)] "horsepower"
      = some none := by
  refine ⟨?_, rfl, ?_, rfl⟩
  · intro cbp attr x hx hsome
    unfold compare_cards bestIndexSpec
    cases hrule : RULES.lookup attr with
    | none => rfl
    | some rule =>
      simp only []
      have hcond : ¬(((cbp.map (fun x => (x.1, getAttr x.2 attr))).all
          (fun x => x.2.isNone)) = true) := by
        intro hall
        rw [List.all_eq_true] at hall
        have h2 := hall (x.1, getAttr x.2 attr) (List.mem_map.mpr ⟨x, hx, rfl⟩)
        cases hg : getAttr x.2 attr with
        | none => rw [hg] at hsome; simp at hsome
        | some q => rw [hg] at h2; simp at h2
      rw [if_neg hcond]
  · have h : RULES.lookup "acceleration" = some "lower" := by
      simp [RULES, List.lookup]
    have h1 : Score.le (Score.fin (14/5)) (Score.fin (16/5)) = true := by
      simp only [Score.le, decide_eq_true_eq]
      norm_num
    have h2 : ((16 : ℚ)/5 = 14/5) = False := by norm_num
    have h3 : ((14 : ℚ)/5 = 14/5) = True := by norm_num
    simp [compare_cards, h, getAttr, accCard, scoreOf, minScore, h1,
      List.lookup, h2, h3]

/-- Closed instance of the amended C2: the refinement evaluated at a concrete
singleton map with a concrete value. -/
theorem C2_unique_best_witness :
    compare_cards [(1, tsCard 300)] "top_speed"
      = bestIndexSpec [(1, tsCard 300)] "top_speed" :=
  C2_unique_best.1 [(1, tsCard 300)] "top_speed" (1, tsCard 300)
    (by simp) rfl

end TopTrumps
